import Mathlib

/-!
Shallow embedding of `megatron/data/gpt2_dataset.py`: the index-mapping
builders (`_num_tokens`, `_num_epochs`, `_build_doc_idx`,
`_build_sample_idx`, `_build_shuffle_idx`, and the `pack_until_overflow`
and `unpacked` branches of `_build_index_mappings`) together with the
sample assembler `GPT2Dataset.__getitem__`, the constructor's
length-mismatch warning, and `GPT2Dataset.__len__`.

Conventions.  Numpy arrays are Lean lists; a document store is a function
from a document id to its token array and `store.get(doc, offset, length)`
is drop/take slicing.  Python ints are `Int` wherever a value can become
negative (offsets and the remaining-length counter of the packed builder;
the running total of `_num_epochs`), and `Nat` otherwise.  The seeded
numpy in-place shuffle is a parameter `shuffleFn k l`, the k-th shuffle
call of the run applied to list `l`; theorems only assume each call
returns a permutation.  Unbounded `while` loops carry explicit fuel,
`none` / `.error .outOfFuel` meaning the loop did not finish within the
given fuel.  A Python `IndexError` is modelled by `none` /
`.error .indexError` (in `__getitem__` the error value carries the
current value of the local variable `idx`, which the `except` handler
reads), and the `AttributeError` raised by calling `.get` on `None` is
`.error .attributeError`.
-/

namespace GPT2D

/-- `_num_tokens(documents, sizes)`: `np.sum(sizes[documents])`. -/
def num_tokens (documents sizes : List Nat) : Nat :=
  (documents.map (fun d => sizes.getD d 0)).sum

/-- The `while True` loop of `_num_epochs`, fuel-indexed.  Each pass
increments `num_epochs`, adds `tokens_per_epoch` to `total_tokens` and
stops as soon as `(total_tokens - 1) // seq_length >= num_samples`; the
running total is an `Int` because Python's `//` is floor division and
`total_tokens - 1` is `-1` on a zero-token corpus. -/
def numEpochsLoop (tokensPerEpoch seqLength numSamples : Nat) :
    Nat → Nat → Int → Option Nat
  | 0, _, _ => none
  | fuel + 1, numEpochs, totalTokens =>
    if (numSamples : Int) ≤ (totalTokens + (tokensPerEpoch : Int) - 1).fdiv (seqLength : Int) then
      some (numEpochs + 1)
    else
      numEpochsLoop tokensPerEpoch seqLength numSamples fuel (numEpochs + 1)
        (totalTokens + (tokensPerEpoch : Int))

/-- `_num_epochs(tokens_per_epoch, seq_length, num_samples)` with fuel. -/
def num_epochs (tokensPerEpoch seqLength numSamples fuel : Nat) : Option Nat :=
  numEpochsLoop tokensPerEpoch seqLength numSamples fuel 0 0

/-- `plannerDiverges L n` says the epoch planner `_num_epochs(0, L, n)`
returns within no finite number of loop iterations. -/
def plannerDiverges (seqLength numSamples : Nat) : Prop :=
  ∀ fuel, num_epochs 0 seqLength numSamples fuel = none

/-- `_build_doc_idx(documents, num_epochs, np_rng)`: `documents`
replicated `num_epochs` times, flattened, then shuffled once as a single
block (RNG call 0 of the packed build). -/
def build_doc_idx (shuffleFn : Nat → List Nat → List Nat)
    (documents : List Nat) (numEpochs : Nat) : List Nat :=
  shuffleFn 0 ((List.replicate numEpochs documents).flatten)

/-- `_build_shuffle_idx(size, np_rng)`: `arange(size)` shuffled (RNG
call 1 of the packed build; dtype width selection does not change the
contents). -/
def build_shuffle_idx (shuffleFn : Nat → List Nat → List Nat) (size : Nat) : List Nat :=
  shuffleFn 1 (List.range size)

/-- The inner `while remaining_seq_length != 0` loop of
`_build_sample_idx`, recursing over the tail of `doc_idx` starting at the
current `doc_idx_index`.  `doc_length = sizes[doc_id] - doc_offset`;
subtracting it from `remaining` either ends the sample inside this
document (`remaining - doc_length <= 0`), adjusting
`doc_offset += remaining + doc_length - 1`, or moves to the next document
at offset 0.  Returns how many documents were advanced past, and the new
`doc_offset`.  `none` models the `IndexError` of running off the end of
`doc_idx` (or a bad document id into `sizes`). -/
def advanceLoop (sizes : List Nat) : List Nat → Int → Int → Option (Nat × Int)
  | [], _, _ => none
  | docId :: rest, docOffset, remaining =>
    match sizes.get? docId with
    | none => none
    | some sz =>
      let docLength : Int := (sz : Int) - docOffset
      if remaining - docLength ≤ 0 then
        some (0, docOffset + (remaining - docLength) + docLength - 1)
      else
        (advanceLoop sizes rest 0 (remaining - docLength)).map (fun p => (p.1 + 1, p.2))

/-- The outer `while sample_index <= num_samples` loop of
`_build_sample_idx`: records one `(doc_idx_index, doc_offset)` boundary
per sample, each produced by `advanceLoop` with a fresh
`remaining_seq_length = seq_length + 1`. -/
def sampleLoop (sizes docIdx : List Nat) (seqLength : Nat) :
    Nat → Nat → Int → Option (List (Nat × Int))
  | 0, _, _ => some []
  | n + 1, pos, off =>
    match advanceLoop sizes (docIdx.drop pos) off ((seqLength : Int) + 1) with
    | none => none
    | some (k, off2) =>
      match sampleLoop sizes docIdx seqLength n (pos + k) off2 with
      | none => none
      | some bs => some ((pos + k, off2) :: bs)

/-- `_build_sample_idx(sizes, doc_idx, seq_length, num_epochs,
tokens_per_epoch)`: `num_samples = (num_epochs * tokens_per_epoch - 1) //
seq_length` boundaries after the initial `(0, 0)` entry.  (The compiled
`helpers.build_sample_idx_*` used by `_build_index_mappings` implements
this same in-repo reference algorithm.) -/
def build_sample_idx (sizes docIdx : List Nat) (seqLength numEpochs tokensPerEpoch : Nat) :
    Option (List (Nat × Int)) :=
  match sampleLoop sizes docIdx seqLength ((numEpochs * tokensPerEpoch - 1) / seqLength) 0 0 with
  | none => none
  | some bs => some ((0, 0) :: bs)

/-- Failure modes of the fuelled boundary builders. -/
inductive BuildError
  | outOfFuel
  | indexError
  | attributeError
deriving DecidableEq

/-- `exceptIsOk r` is true when `r` is a success. -/
def exceptIsOk {ε α : Type} : Except ε α → Bool
  | .ok _ => true
  | .error _ => false

/-- True exactly on the `AttributeError` outcome. -/
def isAttrError {α : Type} : Except BuildError α → Bool
  | .error .attributeError => true
  | _ => false

/-- The per-candidate skip tests of the `pack_until_overflow` loop, in
source order: with `allow_chopped` false, first read
`sizes[temp_shuffle_idx[curr]]` (a bad index is `none`, an `IndexError`)
and skip when it exceeds `seq_length + 1`; then, when a label dataset is
configured, skip when the first `seq_length + 1` label positions are all
`-100` (numpy's `np.all` on an empty slice is true, as is `List.all` on
`[]`).  `some true` means skip this candidate. -/
def puoCheck (sizes : List Nat) (labelDs : Option (Nat → List Int)) (seqLength : Nat)
    (allowChopped : Bool) (tid : Nat) : Option Bool :=
  if allowChopped then
    match labelDs with
    | some lds => some (((lds tid).take (seqLength + 1)).all (· == -100))
    | none => some false
  else
    match sizes.get? tid with
    | none => none
    | some sz =>
      if seqLength + 1 < sz then some true
      else
        match labelDs with
        | some lds => some (((lds tid).take (seqLength + 1)).all (· == -100))
        | none => some false

/-- The accept step of the `pack_until_overflow` loop (lines 321-332):
the new `running_length` and the updated `sample_idx` and `doc_idx`.  An
accepted document either opens a sample (`running_length == 0`),
overflows into a fresh sample (`running + doc_length > seq_length + 1`),
or extends the current one; the boundary recorded is `(len(doc_idx), 0)`
before the document is appended. -/
def puoAccept (seqLength running docLength : Nat) (sampleIdx : List (Nat × Int))
    (docIdx : List Nat) (tid : Nat) : Nat × List (Nat × Int) × List Nat :=
  if running = 0 then
    (docLength, sampleIdx ++ [(docIdx.length, (0 : Int))], docIdx ++ [tid])
  else if seqLength + 1 < running + docLength then
    (docLength, sampleIdx ++ [(docIdx.length, (0 : Int))], docIdx ++ [tid])
  else
    (running + docLength, sampleIdx, docIdx ++ [tid])

/-- The `while len(sample_idx) < num_samples` loop of the
`pack_until_overflow` branch of `_build_index_mappings`.  State:
remaining fuel, `temp_shuffle_idx`, `curr_shuffle_idx`, `running_length`,
the index of the next RNG shuffle call, and the accumulated `sample_idx`
and `doc_idx`.  An accepted document either opens a sample
(`running_length == 0`), overflows into a fresh sample
(`running + doc_length > seq_length + 1`), or extends the current one;
the boundary recorded is `(len(doc_idx), 0)` before the document is
appended.  The wrap-around test `curr + 1 == len(documents)` runs only on
the accept path, exactly as in the source (`continue` skips it). -/
def puoLoop (sizes : List Nat) (labelDs : Option (Nat → List Int))
    (documentsLen numSamples seqLength : Nat) (allowChopped : Bool)
    (shuffleFn : Nat → List Nat → List Nat) :
    Nat → List Nat → Nat → Nat → Nat → List (Nat × Int) → List Nat →
    Except BuildError (List (Nat × Int) × List Nat)
  | 0, _, _, _, _, _, _ => .error .outOfFuel
  | fuel + 1, temp, curr, running, shufCount, sampleIdx, docIdx =>
    if sampleIdx.length < numSamples then
      match temp.get? curr with
      | none => .error .indexError
      | some tid =>
        match puoCheck sizes labelDs seqLength allowChopped tid with
        | none => .error .indexError
        | some true =>
          puoLoop sizes labelDs documentsLen numSamples seqLength allowChopped shuffleFn
            fuel temp (curr + 1) running shufCount sampleIdx docIdx
        | some false =>
          match sizes.get? tid with
          | none => .error .indexError
          | some docLength =>
            if curr + 1 = documentsLen then
              puoLoop sizes labelDs documentsLen numSamples seqLength allowChopped shuffleFn
                fuel (shuffleFn shufCount temp) 0
                (puoAccept seqLength running docLength sampleIdx docIdx tid).1
                (shufCount + 1)
                (puoAccept seqLength running docLength sampleIdx docIdx tid).2.1
                (puoAccept seqLength running docLength sampleIdx docIdx tid).2.2
            else
              puoLoop sizes labelDs documentsLen numSamples seqLength allowChopped shuffleFn
                fuel temp (curr + 1)
                (puoAccept seqLength running docLength sampleIdx docIdx tid).1
                shufCount
                (puoAccept seqLength running docLength sampleIdx docIdx tid).2.1
                (puoAccept seqLength running docLength sampleIdx docIdx tid).2.2
    else .ok (sampleIdx, docIdx)

/-- The `pack_until_overflow` branch of `_build_index_mappings`:
`shuffle_idx` is a shuffled `arange(num_samples)` (RNG call 0),
`temp_shuffle_idx` a shuffled `arange(len(documents))` (RNG call 1), the
loop starts with `running_length = 0` and `curr_shuffle_idx = 0`, and a
final boundary `(len(doc_idx), 0)` is appended after the loop.  Returns
`(doc_idx, sample_idx, shuffle_idx)`. -/
def pack_until_overflow_build (sizes : List Nat) (labelDs : Option (Nat → List Int))
    (documentsLen numSamples seqLength : Nat) (allowChopped : Bool)
    (shuffleFn : Nat → List Nat → List Nat) (fuel : Nat) :
    Except BuildError (List Nat × List (Nat × Int) × List Nat) :=
  match puoLoop sizes labelDs documentsLen numSamples seqLength allowChopped shuffleFn
      fuel (shuffleFn 1 (List.range documentsLen)) 0 0 2 [] [] with
  | .error e => .error e
  | .ok (sampleIdx, docIdx) =>
    .ok (docIdx, sampleIdx ++ [(docIdx.length, (0 : Int))],
      shuffleFn 0 (List.range numSamples))

/-- The `while len(doc_idx) <= num_samples` loop of the `unpacked` branch
of `_build_index_mappings`.  The cursor `doc_i` walks `0, 1, ...,
len(documents) - 1` cyclically; with `allow_chopped` false a document
longer than `seq_length + 1` is skipped; then the source evaluates
`label_dataset.get(doc_i)` unconditionally, so a missing label dataset is
an `AttributeError`, and a document whose first `seq_length` label
positions are all `-100` is skipped. -/
def unpackedLoop (sizes : List Nat) (labelDs : Option (Nat → List Int))
    (documentsLen numSamples seqLength : Nat) (allowChopped : Bool) :
    Nat → Nat → List Nat → Except BuildError (List Nat)
  | 0, _, _ => .error .outOfFuel
  | fuel + 1, doc_i, docIdx =>
    if docIdx.length ≤ numSamples then
      match (if allowChopped then some false
             else
               match sizes.get? doc_i with
               | none => none
               | some sz => some (decide (seqLength + 1 < sz))) with
      | none => .error .indexError
      | some true =>
        unpackedLoop sizes labelDs documentsLen numSamples seqLength allowChopped
          fuel ((doc_i + 1) % documentsLen) docIdx
      | some false =>
        match labelDs with
        | none => .error .attributeError
        | some lds =>
          if ((lds doc_i).take seqLength).all (· == -100) then
            unpackedLoop sizes labelDs documentsLen numSamples seqLength allowChopped
              fuel ((doc_i + 1) % documentsLen) docIdx
          else
            unpackedLoop sizes labelDs documentsLen numSamples seqLength allowChopped
              fuel ((doc_i + 1) % documentsLen) (docIdx ++ [doc_i])
    else .ok docIdx

/-- The `unpacked` branch of `_build_index_mappings`: `shuffle_idx` is a
shuffled `arange(num_samples)` (RNG call 0), `sample_idx` is the
`(num_samples + 1) × 2` array with rows `(i, 0)`, and `doc_idx` is built
by `unpackedLoop` starting from `doc_i = 0`.  Returns
`(doc_idx, sample_idx, shuffle_idx)`. -/
def unpacked_build (sizes : List Nat) (labelDs : Option (Nat → List Int))
    (documentsLen numSamples seqLength : Nat) (allowChopped : Bool)
    (shuffleFn : Nat → List Nat → List Nat) (fuel : Nat) :
    Except BuildError (List Nat × List (Nat × Int) × List Nat) :=
  match unpackedLoop sizes labelDs documentsLen numSamples seqLength allowChopped fuel 0 [] with
  | .error e => .error e
  | .ok docIdx =>
    .ok (docIdx, (List.range (numSamples + 1)).map (fun i => (i, (0 : Int))),
      shuffleFn 0 (List.range numSamples))

/-- The warning test of `GPT2Dataset.__init__` (lines 79-85):
`shuffle_idx_len = shuffle_idx.shape[0] - 1`,
`sample_idx_len = sample_idx.shape[0] - 1`, and the warning is printed
when `shuffle_idx_len != sample_idx_len - 1`; the subtractions are Python
int arithmetic, hence `Int`. -/
def lengthMismatchWarning (shuffleLen sampleLen : Nat) : Bool :=
  decide (((shuffleLen : Int) - 1) ≠ ((sampleLen : Int) - 1) - 1)

/-- A constructed `GPT2Dataset`: the text store (`indexed_dataset`), the
optional label / reward / reference channel stores, the three built index
arrays, and `seq_length`.  Stores map a document id to its full token
array. -/
structure GPT2DatasetModel where
  indexed : Nat → List Int
  labelDs : Option (Nat → List Int)
  rewardDs : Option (Nat → List Int)
  refDs : Option (Nat → List Int)
  docIdx : List Nat
  sampleIdx : List (Nat × Int)
  shuffleIdx : List Nat
  seqLength : Nat

/-- The result dictionary of `__getitem__`: keys present are exactly the
configured channels, text always. -/
structure SampleResult where
  text : List Int
  label : Option (List Int)
  reward : Option (List Int)
  ref : Option (List Int)
deriving DecidableEq

/-- `indexed_dataset.get(doc, offset=o, length=n)`: the sub-array
`arr[o : o + n]`. -/
def storeGet (store : Nat → List Int) (doc offset length : Nat) : List Int :=
  ((store doc).drop offset).take length

/-- `np.array([rw[0] for _ in range(n)])`: `rw[0]` is evaluated once per
iteration, so an empty `rw` only raises (`none`) when `n > 0`. -/
def broadcastFirst (rw : List Int) (n : Nat) : Option (List Int) :=
  (List.range n).mapM (fun _ => rw.get? 0)

/-- The `datasets` list of `__getitem__` (lines 100-110): the text store,
then label, reward, reference, keeping only the configured ones. -/
def datasetsList (m : GPT2DatasetModel) : List (Nat → List Int) :=
  [m.indexed] ++ m.labelDs.toList ++ m.rewardDs.toList ++ m.refDs.toList

/-- `rw_indx` of `__getitem__`: starts at 1, becomes 2 when a label
dataset is present, and is `-1` when no reward dataset is configured. -/
def rwIndx (m : GPT2DatasetModel) : Int :=
  if m.rewardDs.isSome then (if m.labelDs.isSome then 2 else 1) else -1

/-- The reward pieces of the multi-document branch: for each spanned
document position, look it up in `doc_idx`, pop the head of
`sample_lengths` (empty is an `IndexError`) and broadcast the FIRST
element of the document's reward array over that many positions, exactly
as the source does with `rw[0]`.  Returns the pieces and the remaining
`sample_lengths`. -/
def rewardPieces (m : GPT2DatasetModel) (err : Nat) (store : Nat → List Int) :
    List Nat → List Nat → Except Nat (List (List Int) × List Nat)
  | [], lens => .ok ([], lens)
  | p :: ps, lens =>
    match m.docIdx.get? p with
    | none => .error err
    | some d =>
      match lens with
      | [] => .error err
      | len0 :: rest =>
        match broadcastFirst (store d) len0 with
        | none => .error err
        | some arr =>
          match rewardPieces m err store ps rest with
          | .error e => .error e
          | .ok (pieces, lens2) => .ok (arr :: pieces, lens2)

/-- Interior documents of a multi-document span: `doc_idx[i]` for
`i = doc_index_f + 1, ..., doc_index_l - 1`, each taken whole. -/
def interiorPieces (m : GPT2DatasetModel) (err : Nat) (store : Nat → List Int)
    (f l : Nat) : Except Nat (List (List Int)) :=
  (List.range (l - f - 1)).mapM (fun j =>
    match m.docIdx.get? (f + 1 + j) with
    | none => .error err
    | some d => .ok (store d))

/-- One channel of the assembly loop of `__getitem__` (lines 114-166),
updating the `(samples, sample_lengths)` state.  Within a single document
the non-reward slice is `dataset.get(doc_idx[f], offset=offset_l,
length=offset_l - offset_f + 1)` — the source passes `offset_l`, not
`offset_f`, as the offset — and the reward channel broadcasts `rw[0]`
over `len(samples[-1])` positions.  Across documents a non-reward channel
resets `sample_lengths` and concatenates tail, whole interior documents
and head, recording each piece's length; the reward channel pops those
lengths and broadcasts `rw[0]` per spanned document. -/
def assembleChannel (m : GPT2DatasetModel) (err f l : Nat) (offF offL : Int)
    (store : Nat → List Int) (isRw : Bool) (st : List (List Int) × List Nat) :
    Except Nat (List (List Int) × List Nat) :=
  if f = l then
    match m.docIdx.get? f with
    | none => .error err
    | some docId =>
      if isRw then
        match st.1.getLast? with
        | none => .error err
        | some prev =>
          match broadcastFirst (store docId) prev.length with
          | none => .error err
          | some arr => .ok (st.1 ++ [arr], st.2)
      else
        .ok (st.1 ++ [storeGet store docId offL.toNat (offL - offF + 1).toNat], st.2)
  else
    if isRw then
      match rewardPieces m err store
          (f :: (((List.range (l - f - 1)).map (fun j => f + 1 + j)) ++ [l])) st.2 with
      | .error e => .error e
      | .ok (pieces, lensRest) => .ok (st.1 ++ [pieces.flatten], lensRest)
    else
      match m.docIdx.get? f with
      | none => .error err
      | some docF =>
        let first := (store docF).drop offF.toNat
        match interiorPieces m err store f l with
        | .error e => .error e
        | .ok mids =>
          match m.docIdx.get? l with
          | none => .error err
          | some docL =>
            let last := (store docL).take (offL + 1).toNat
            let pieces := first :: (mids ++ [last])
            .ok (st.1 ++ [pieces.flatten], pieces.map List.length)

/-- The full channel loop: fold `assembleChannel` over the enumerated
`datasets` list, a channel being the reward one when its position equals
`rw_indx`. -/
def channelsFold (m : GPT2DatasetModel) (err f l : Nat) (offF offL : Int) :
    Except Nat (List (List Int)) :=
  match (datasetsList m).enum.foldlM
      (fun st p => assembleChannel m err f l offF offL p.2 (decide ((p.1 : Int) = rwIndx m)) st)
      ([], []) with
  | .error e => .error e
  | .ok st => .ok st.1

/-- Padding / truncation of one assembled channel (lines 167-179):
channel 1 is the label channel when one is configured and pads with the
`-100` mask, every other channel pads with 0; longer arrays are truncated
to `seq_length + 1`. -/
def padTrim (m : GPT2DatasetModel) (i : Nat) (arr : List Int) : List Int :=
  let mask := m.labelDs.isSome && i == 1
  if arr.length < m.seqLength + 1 then
    arr ++ List.replicate (m.seqLength + 1 - arr.length) (if mask then -100 else 0)
  else if m.seqLength + 1 < arr.length then
    arr.take (m.seqLength + 1)
  else arr

/-- Extraction of one optional channel from the padded `samples` list at
the running `next_idx` (lines 181-189). -/
def takeChannel (present : Bool) (padded : List (List Int)) (nextIdx err : Nat) :
    Except Nat (Option (List Int) × Nat) :=
  if present then
    match padded.get? nextIdx with
    | none => .error err
    | some a => .ok (some a, nextIdx + 1)
  else .ok (none, nextIdx)

/-- The `ret` dictionary construction of `__getitem__` (lines 180-190). -/
def buildResult (m : GPT2DatasetModel) (err : Nat) (padded : List (List Int)) :
    Except Nat SampleResult :=
  match padded.get? 0 with
  | none => .error err
  | some text =>
    match takeChannel m.labelDs.isSome padded 1 err with
    | .error e => .error e
    | .ok (lab, n1) =>
      match takeChannel m.rewardDs.isSome padded n1 err with
      | .error e => .error e
      | .ok (rw, n2) =>
        match takeChannel m.refDs.isSome padded n2 err with
        | .error e => .error e
        | .ok (rf, _) => .ok ⟨text, lab, rw, rf⟩

/-- The `try` body of `__getitem__`: map through `shuffle_idx`, read the
two boundary pairs, assemble every channel, pad or truncate, and build
the result.  An `IndexError` carries the value the local `idx` holds when
it is raised: the external index if `shuffle_idx[idx]` itself was out of
range, the shuffled value afterwards. -/
def tryBody (m : GPT2DatasetModel) (idx : Nat) : Except Nat SampleResult :=
  match m.shuffleIdx.get? idx with
  | none => .error idx
  | some v =>
    match m.sampleIdx.get? v, m.sampleIdx.get? (v + 1) with
    | some bF, some bL =>
      match channelsFold m v bF.1 bL.1 bF.2 bL.2 with
      | .error e => .error e
      | .ok samples => buildResult m v ((samples.enum.map (fun p => padTrim m p.1 p.2)))
    | _, _ => .error v

/-- `shuffle_idx_len` of `__init__`: `shuffle_idx.shape[0] - 1` as a
Python int. -/
def shuffle_idx_len (m : GPT2DatasetModel) : Int :=
  (m.shuffleIdx.length : Int) - 1

/-- `sample_idx_len` of `__init__`: `sample_idx.shape[0] - 1`. -/
def sample_idx_len (m : GPT2DatasetModel) : Int :=
  (m.sampleIdx.length : Int) - 1

/-- `GPT2Dataset.__len__`: `min(shuffle_idx_len, sample_idx_len)`. -/
def datasetLen (m : GPT2DatasetModel) : Int :=
  min (shuffle_idx_len m) (sample_idx_len m)

/-- `GPT2Dataset.__getitem__` with fuel for the `except IndexError`
recursion: on an `IndexError` the handler retries with
`idx % len(self)` (Python `%`, i.e. `Int.emod`) on the idx value the
exception saw, and the flag records that the warning was printed. -/
def getitem (m : GPT2DatasetModel) : Nat → Nat → Option (SampleResult × Bool)
  | 0, _ => none
  | fuel + 1, idx =>
    match tryBody m idx with
    | .ok r => some (r, false)
    | .error e =>
      match getitem m fuel (((e : Int) % datasetLen m).toNat) with
      | none => none
      | some (r, _) => some (r, true)

/-- Sum of `sizes[d]` over a list of document ids. -/
def sumSizes (sizes ds : List Nat) : Nat :=
  (ds.map (fun d => sizes.getD d 0)).sum

/-- Length of the document at position `pos` of `doc_idx`:
`sizes[doc_idx[pos]]`. -/
def docSizeAt (sizes docIdx : List Nat) (pos : Nat) : Nat :=
  sizes.getD (docIdx.getD pos 0) 0

/-- Number of tokens spanned by consecutive boundary pairs `a = (pos_a,
off_a)` and `b = (pos_b, off_b)`, both offsets inclusive: within one
document it is `off_b - off_a + 1`, otherwise the tail of document
`pos_a` from `off_a`, all interior documents whole, and `off_b + 1`
head tokens of document `pos_b`. -/
def spanTokens (sizes docIdx : List Nat) (a b : Nat × Int) : Int :=
  if a.1 = b.1 then b.2 - a.2 + 1
  else
    ((docSizeAt sizes docIdx a.1 : Int) - a.2)
      + (((List.range (b.1 - a.1 - 1)).map
            (fun j => (docSizeAt sizes docIdx (a.1 + 1 + j) : Int))).sum)
      + (b.2 + 1)

/-- Position of the boundary `(pos, off)` in the virtual token stream
obtained by laying the documents of `doc_idx` end to end. -/
def vposOf (sizes docIdx : List Nat) (pos : Nat) (off : Int) : Int :=
  (sumSizes sizes (docIdx.take pos) : Int) + off

/-! Concrete instances used by witnesses and counterexamples. -/

/-- Unpacked-style dataset with a reward channel: one document of six
text tokens whose reward array is `[0,0,0,0,0,9]`, one sample spanning
the whole document, `seq_length = 5`. -/
def mRw : GPT2DatasetModel where
  indexed := fun _ => [1, 2, 3, 4, 5, 6]
  labelDs := none
  rewardDs := some (fun _ => [0, 0, 0, 0, 0, 9])
  refDs := none
  docIdx := [0]
  sampleIdx := [(0, 0), (0, 5)]
  shuffleIdx := [0]
  seqLength := 5

/-- Text-only dataset with one document `[10,11,12,13,14]` and one sample
whose boundary pair is `(0,0) - (0,2)` inside that document,
`seq_length = 2`. -/
def mSpan : GPT2DatasetModel where
  indexed := fun _ => [10, 11, 12, 13, 14]
  labelDs := none
  rewardDs := none
  refDs := none
  docIdx := [0]
  sampleIdx := [(0, 0), (0, 2)]
  shuffleIdx := [0]
  seqLength := 2

/-- Consistent two-sample dataset (`len(shuffle_idx) = 2`,
`len(sample_idx) = 3`) whose shuffle permutation is `[1, 0]`; used for
the fallback-path and addressability claims. -/
def mTwo : GPT2DatasetModel where
  indexed := fun d => if d = 0 then [1, 2] else [3, 4]
  labelDs := none
  rewardDs := none
  refDs := none
  docIdx := [0, 1]
  sampleIdx := [(0, 0), (0, 1), (1, 1)]
  shuffleIdx := [1, 0]
  seqLength := 1

/-- Same data as `mTwo`, for the length/addressability claim. -/
def mLen : GPT2DatasetModel where
  indexed := fun d => if d = 0 then [1, 2] else [3, 4]
  labelDs := none
  rewardDs := none
  refDs := none
  docIdx := [0, 1]
  sampleIdx := [(0, 0), (0, 1), (1, 1)]
  shuffleIdx := [1, 0]
  seqLength := 1

/-- Identity stand-in for the seeded shuffle stream, used by concrete
witness runs. -/
def idShuffle : Nat → List Nat → List Nat := fun _ l => l

/-!  Theorems.  -/

section Planner

/-- On a zero-token corpus the running total of `_num_epochs` stays 0, the
stopping test compares `num_samples` against `(-1) // seq_length = -1`,
and the loop never returns. -/
lemma numEpochsLoop_zero (seqLength numSamples : Nat) (hL : 0 < seqLength) :
    ∀ fuel k, numEpochsLoop 0 seqLength numSamples fuel k 0 = none := by
  intro fuel
  induction fuel with
  | zero => intro k; rfl
  | succ f ih =>
    intro k
    have hval : (0 : Int) + ((0 : Nat) : Int) = 0 := by norm_num
    have hcond : ¬ ((numSamples : Int) ≤
        ((0 : Int) - 1).fdiv (seqLength : Int)) := by
      have h1 : ((0 : Int) - 1) = -1 := by norm_num
      rw [h1]
      have h2 : (-1 : Int).fdiv (seqLength : Int) < 0 :=
        Int.fdiv_neg' (by norm_num) (by exact_mod_cast hL)
      have h3 : (0 : Int) ≤ (numSamples : Int) := Int.ofNat_nonneg _
      omega
    simp only [numEpochsLoop, hval]
    rw [if_neg hcond]
    exact ih (k + 1)

/-- The stopping test of `_num_epochs`, as the source computes it:
floor division of `e * tokens_per_epoch - 1` by `seq_length` reaches
`num_samples`. -/
def epochsEnough (tokensPerEpoch seqLength numSamples e : Nat) : Prop :=
  (numSamples : Int) ≤ ((e : Int) * tokensPerEpoch - 1).fdiv (seqLength : Int)

/-- After `k` completed iterations the running total is `k *
tokens_per_epoch`; given that some epoch count within the remaining fuel
passes the stopping test, the loop returns the least epoch count above
`k` that passes it. -/
lemma numEpochsLoop_spec (T L n : Nat) :
    ∀ fuel k, (∃ d, 1 ≤ d ∧ d ≤ fuel ∧ epochsEnough T L n (k + d)) →
      ∃ e, numEpochsLoop T L n fuel k ((k : Int) * T) = some e ∧ k < e ∧
        epochsEnough T L n e ∧
        ∀ j, k < j → j < e → ¬ epochsEnough T L n j := by
  intro fuel
  induction fuel with
  | zero =>
    rintro k ⟨d, h1, h2, _⟩
    omega
  | succ f ih =>
    rintro k ⟨d, h1, h2, h3⟩
    have hcast : (k : Int) * T + ((T : Nat) : Int) = (((k + 1 : Nat) : Int)) * T := by
      push_cast; ring
    by_cases hc : epochsEnough T L n (k + 1)
    · refine ⟨k + 1, ?_, by omega, hc, by omega⟩
      have hc2 : (n : Int) ≤ ((k : Int) * T + ((T : Nat) : Int) - 1).fdiv (L : Int) := by
        rw [hcast]; exact_mod_cast hc
      simp only [numEpochsLoop, if_pos hc2]
    · have hd2 : 2 ≤ d := by
        rcases Nat.lt_or_ge d 2 with h | h
        · interval_cases d
          exact absurd (by simpa using h3) hc
        · exact h
      have hrec := ih (k + 1) ⟨d - 1, by omega, by omega, by
        have : k + 1 + (d - 1) = k + d := by omega
        rw [this]; exact h3⟩
      rcases hrec with ⟨e, he, hlt, hP, hmin⟩
      have hc2 : ¬ ((n : Int) ≤ ((k : Int) * T + ((T : Nat) : Int) - 1).fdiv (L : Int)) := by
        rw [hcast]; exact_mod_cast hc
      refine ⟨e, ?_, by omega, hP, ?_⟩
      · simp only [numEpochsLoop, if_neg hc2]
        rw [← hcast] at he
        exact he
      · intro j hj1 hj2
        rcases Nat.lt_or_ge j (k + 2) with h | h
        · have : j = k + 1 := by omega
          rw [this]; exact hc
        · exact hmin j (by omega) hj2

/-- For a positive corpus and epoch count `e ≥ 1`, the source's stopping
test is the natural-number condition `num_samples ≤ (e * tokens_per_epoch
- 1) / seq_length`. -/
lemma epochsEnough_iff (T L n : Nat) (hT : 0 < T) (j : Nat) (hj : 1 ≤ j) :
    epochsEnough T L n j ↔ n ≤ (j * T - 1) / L := by
  have h1 : 1 ≤ j * T := Nat.one_le_iff_ne_zero.mpr (by positivity)
  have hc : ((j : Int) * T - 1) = (((j * T - 1 : Nat)) : Int) := by
    push_cast [h1]; ring
  unfold epochsEnough
  rw [hc, ← Int.ofNat_fdiv]
  exact_mod_cast Iff.rfl

end Planner

/-- C8: for every `tokens_per_epoch > 0`, `seq_length > 0` and
`num_samples ≥ 0`, the epoch planner `_num_epochs` terminates (fuel
`num_samples * seq_length + 1` suffices) and returns the smallest
`num_epochs ≥ 1` with `(num_epochs * tokens_per_epoch - 1) // seq_length
≥ num_samples`. -/
theorem claim_C8 (T L n fuel : Nat) (hT : 0 < T) (hL : 0 < L)
    (hfuel : n * L + 1 ≤ fuel) :
    ∃ e, num_epochs T L n fuel = some e ∧ 1 ≤ e ∧ n ≤ (e * T - 1) / L ∧
      ∀ e2, 1 ≤ e2 → n ≤ (e2 * T - 1) / L → e ≤ e2 := by
  have hwit : epochsEnough T L n (0 + (n * L + 1)) := by
    have h0 : 0 + (n * L + 1) = n * L + 1 := by omega
    rw [h0, epochsEnough_iff T L n hT _ (by omega), Nat.le_div_iff_mul_le hL]
    have h1 : n * L + 1 ≤ (n * L + 1) * T := by
      have h2 := Nat.mul_le_mul_left (n * L + 1) hT
      simpa using h2
    omega
  have h0 : numEpochsLoop T L n fuel 0 (((0 : Nat) : Int) * T) =
      numEpochsLoop T L n fuel 0 0 := by norm_num
  obtain ⟨e, he, hlt, hP, hmin⟩ :=
    numEpochsLoop_spec T L n fuel 0 ⟨n * L + 1, by omega, hfuel, hwit⟩
  refine ⟨e, ?_, by omega, ?_, ?_⟩
  · rw [num_epochs, ← h0]; exact he
  · exact (epochsEnough_iff T L n hT e (by omega)).mp hP
  · intro e2 h1 h2
    by_contra hcon
    exact hmin e2 (by omega) (by omega) ((epochsEnough_iff T L n hT e2 h1).mpr h2)

/-- C8 witness: at `tokens_per_epoch = 5`, `seq_length = 2`,
`num_samples = 3` the planner terminates. -/
theorem claim_C8_witness : (num_epochs 5 2 3 7).isSome = true := by
  obtain ⟨e, he, -, -, -⟩ := claim_C8 5 2 3 7 (by norm_num) (by norm_num) (by norm_num)
  rw [he]; rfl

/-- C9 counterexample: with `tokens_per_epoch = 0`, `seq_length = 4` and
`num_samples = 3`, index-mapping construction does not fail with a
configuration error — its first step, the epoch planner, never returns at
all, within any amount of fuel. -/
theorem claim_C9_counterexample : plannerDiverges 4 3 :=
  fun fuel => numEpochsLoop_zero 4 3 (by norm_num) fuel 0

/-- C9 amended: when `tokens_per_epoch = 0` the epoch planner
`_num_epochs` — the first computation of `_build_index_mappings` — loops
forever: the running total stays 0 and `(0 - 1) // seq_length = -1` never
reaches the requested sample count, so construction neither completes nor
raises a configuration error. -/
theorem claim_C9 (seqLength numSamples : Nat) (hL : 0 < seqLength) :
    plannerDiverges seqLength numSamples :=
  fun fuel => numEpochsLoop_zero seqLength numSamples hL fuel 0

/-- C9 witness: concrete divergence instance. -/
theorem claim_C9_witness : num_epochs 0 4 3 1000 = none :=
  claim_C9 4 3 (by norm_num) 1000

/-- C2 (code-bug evidence): on a single document of length 6 with reward
array `[0,0,0,0,0,9]` and one sample spanning the whole document, the
assembler returns reward channel `[0,0,0,0,0,0]` — it broadcasts `rw[0]`,
the first element of the document's reward array — and not
`[9,9,9,9,9,9]`, the broadcast of the last-position value that the claim,
the spec, and the source's own comment ("we only need the last token")
require. -/
theorem claim_C2 :
    getitem mRw 4 0 =
      some (⟨[6, 0, 0, 0, 0, 0], none, some [0, 0, 0, 0, 0, 0], none⟩, false) ∧
    (getitem mRw 4 0).map (fun p => p.1.reward) ≠ some (some [9, 9, 9, 9, 9, 9]) := by
  decide

/-- C3 (code-bug evidence): on a single document `[10,11,12,13,14]` with
boundary pair `(0,0) - (0,2)`, the assembled text channel is
`[12,13,14]`, i.e. `doc[offset_l : offset_l + (offset_l - offset_f + 1)]`
— the source passes `offset=offset_l` — and not the claimed sub-span
`doc[offset_f .. offset_l] = [10,11,12]`. -/
theorem claim_C3 :
    getitem mSpan 4 0 = some (⟨[12, 13, 14], none, none, none⟩, false) ∧
    (getitem mSpan 4 0).map (fun p => p.1.text) ≠ some [10, 11, 12] := by
  decide

section Fallback

/-- When the external index is past the end of `shuffle_idx`, the `try`
body raises before the local `idx` is reassigned, so the handler sees the
external index. -/
lemma tryBody_oob (m : GPT2DatasetModel) (idx : Nat)
    (h : m.shuffleIdx.length ≤ idx) : tryBody m idx = .error idx := by
  have h2 : m.shuffleIdx[idx]? = none := List.getElem?_eq_none h
  simp [tryBody, List.get?_eq_getElem?, h2]

/-- A first-try success of the body is returned unwarned by `__getitem__`
under any positive fuel. -/
lemma getitem_of_ok (m : GPT2DatasetModel) (i : Nat) (r : SampleResult)
    (h : tryBody m i = .ok r) :
    ∀ fuel, 1 ≤ fuel → getitem m fuel i = some (r, false) := by
  intro fuel hf
  match fuel, hf with
  | f + 1, _ => simp [getitem, h]

end Fallback

/-- C7 counterexample: `mTwo` has two built samples and
`total_sample_count = len(self) = min(len(shuffle_idx) - 1,
len(sample_idx) - 1) = 1`.  At the external index `N = 1 =
total_sample_count` no out-of-range error occurs (shuffle_idx has 2
entries), no warning is emitted, and the result differs from that of
`N mod total_sample_count = 0` — contradicting the claim for this `N`. -/
theorem claim_C7_counterexample :
    datasetLen mTwo = 1 ∧
    getitem mTwo 4 1 = some (⟨[2, 0], none, none, none⟩, false) ∧
    getitem mTwo 4 (1 % 1) = some (⟨[2, 3], none, none, none⟩, false) := by
  refine ⟨by decide, by decide, by decide⟩

/-- C7 amended: the recovery path triggers exactly for external indices
`N ≥ len(shuffle_idx)` (one more than `total_sample_count = len(self)`):
there `__getitem__` catches the out-of-range error of the shuffle lookup,
emits the warning, and returns exactly the result of
`get_sample(N mod len(self))`, where `len(self) = len(shuffle_idx) - 1`;
the error never propagates.  At `N = len(self)` itself no error occurs
and the boundary `shuffle_idx[N]` is served without warning (see the
counterexample). -/
theorem claim_C7 (m : GPT2DatasetModel) (N fuel : Nat)
    (hP : m.sampleIdx.length = m.shuffleIdx.length + 1)
    (hS : 2 ≤ m.shuffleIdx.length)
    (hok : ∀ i, i < m.shuffleIdx.length - 1 → exceptIsOk (tryBody m i) = true)
    (hN : m.shuffleIdx.length ≤ N) (hfuel : 2 ≤ fuel) :
    ∃ r, getitem m fuel N = some (r, true) ∧
      getitem m fuel (N % (m.shuffleIdx.length - 1)) = some (r, false) := by
  have hlen : datasetLen m = (m.shuffleIdx.length : Int) - 1 := by
    rw [datasetLen, shuffle_idx_len, sample_idx_len, hP]
    push_cast
    omega
  have herr : tryBody m N = .error N := tryBody_oob m N hN
  have hmod : (((N : Int) % datasetLen m)).toNat = N % (m.shuffleIdx.length - 1) := by
    rw [hlen]
    have h1 : (m.shuffleIdx.length : Int) - 1 = ((m.shuffleIdx.length - 1 : Nat) : Int) := by
      omega
    rw [h1, ← Int.ofNat_emod, Int.toNat_natCast]
  have hi : N % (m.shuffleIdx.length - 1) < m.shuffleIdx.length - 1 :=
    Nat.mod_lt _ (by omega)
  obtain ⟨r, hr⟩ : ∃ r, tryBody m (N % (m.shuffleIdx.length - 1)) = .ok r := by
    have h2 := hok _ hi
    rcases h3 : tryBody m (N % (m.shuffleIdx.length - 1)) with e | r
    · rw [h3] at h2; simp [exceptIsOk] at h2
    · exact ⟨r, rfl⟩
  obtain ⟨f1, rfl⟩ : ∃ f1, fuel = f1 + 1 := ⟨fuel - 1, by omega⟩
  refine ⟨r, ?_, getitem_of_ok m _ r hr (f1 + 1) (by omega)⟩
  have hinner : getitem m f1 (((N : Int) % datasetLen m)).toNat = some (r, false) := by
    rw [hmod]
    exact getitem_of_ok m _ r hr f1 (by omega)
  simp [getitem, herr, hinner]

/-- C7 witness: on `mTwo`, external index 5 (past both bounds) resolves
with a warning. -/
theorem claim_C7_witness : (getitem mTwo 2 5).map Prod.snd = some true := by
  obtain ⟨r, h1, h2⟩ := claim_C7 mTwo 5 2 (by decide) (by decide)
    (by decide) (by decide) (by decide)
  rw [h1]
  rfl

/-- C10 counterexample: `mLen` is a correctly built consistent triple
(`len(shuffle_idx) = 2 = len(sample_idx) - 1`, shuffle a permutation of
`range 2`).  `__len__` is 1, the in-range external index 0 maps through
`shuffle_idx[0] = 1 = len(sample_idx) - 2` to the LAST built sample and
returns it — so the last built sample IS addressable through an in-range
index. -/
theorem claim_C10_counterexample :
    datasetLen mLen = 1 ∧
    mLen.shuffleIdx.getD 0 0 + 2 = mLen.sampleIdx.length ∧
    getitem mLen 4 0 = some (⟨[2, 3], none, none, none⟩, false) := by
  refine ⟨by decide, by decide, by decide⟩

/-- C10 amended: `__len__` returns `min(shuffle_idx.shape[0] - 1,
sample_idx.shape[0] - 1)`; for a consistent triple with `S` boundary
samples (`len(shuffle_idx) = S`, `len(sample_idx) = S + 1`, shuffle a
permutation of `range S`) this is `S - 1`, one fewer than the number of
built samples, and the single unreachable sample is the one at boundary
position `shuffle_idx[S - 1]`: a boundary position `v` is addressable
through an in-range index iff `v ≠ shuffle_idx[S - 1]` — the LAST built
sample in particular is addressable whenever `shuffle_idx[S - 1] ≠ S - 1`. -/
theorem claim_C10 (m : GPT2DatasetModel) (S : Nat)
    (hS : m.shuffleIdx.Perm (List.range S))
    (hP : m.sampleIdx.length = S + 1)
    (h1 : 1 ≤ S) :
    datasetLen m = (S : Int) - 1 ∧
    ∀ v, v < S →
      ((∃ i, i + 1 < S ∧ m.shuffleIdx.getD i 0 = v) ↔
        v ≠ m.shuffleIdx.getD (S - 1) 0) := by
  have hlen : m.shuffleIdx.length = S := hS.length_eq.trans (List.length_range S)
  have hnodup : m.shuffleIdx.Nodup := hS.nodup_iff.mpr (List.nodup_range S)
  have hSlen : S - 1 < m.shuffleIdx.length := by rw [hlen]; omega
  constructor
  · rw [datasetLen, shuffle_idx_len, sample_idx_len, hP, hlen]
    push_cast
    omega
  · intro v hv
    constructor
    · rintro ⟨i, hiS, hgi⟩ hvlast
      have hilen : i < m.shuffleIdx.length := by rw [hlen]; omega
      rw [List.getD_eq_getElem?_getD, List.getElem?_eq_getElem hilen] at hgi
      rw [List.getD_eq_getElem?_getD, List.getElem?_eq_getElem hSlen] at hvlast
      simp only [Option.getD_some] at hgi hvlast
      have heq : m.shuffleIdx[i] = m.shuffleIdx[S - 1] := by rw [hgi, ← hvlast]
      have h3 := (hnodup.getElem_inj_iff).mp heq
      omega
    · intro hvlast
      have hmem : v ∈ m.shuffleIdx := hS.mem_iff.mpr (List.mem_range.mpr hv)
      obtain ⟨i, hilen, hgi⟩ := List.mem_iff_getElem.mp hmem
      have hiS : i < S := by rw [hlen] at hilen; exact hilen
      have hine : i ≠ S - 1 := by
        intro hcon
        apply hvlast
        subst hcon
        rw [List.getD_eq_getElem?_getD, List.getElem?_eq_getElem hSlen]
        simp only [Option.getD_some]
        exact hgi.symm
      refine ⟨i, by omega, ?_⟩
      rw [List.getD_eq_getElem?_getD, List.getElem?_eq_getElem hilen]
      simpa using hgi

/-- C10 witness: on the consistent triple `mLen` (two built samples) the
public length is 1. -/
theorem claim_C10_witness : datasetLen mLen = 1 :=
  (claim_C10 mLen 2 (by decide) (by decide) (by decide)).1

section BoundaryBuilders

/-- Documents appended by the accept step: the old ones plus the
candidate. -/
lemma puoAccept_doc (seqLength running docLength : Nat) (sampleIdx : List (Nat × Int))
    (docIdx : List Nat) (tid : Nat) :
    ∀ id ∈ (puoAccept seqLength running docLength sampleIdx docIdx tid).2.2,
      id ∈ docIdx ∨ id = tid := by
  intro id hid
  have h : id ∈ docIdx ++ [tid] := by
    unfold puoAccept at hid
    split at hid
    · exact hid
    · split at hid
      · exact hid
      · exact hid
  rcases List.mem_append.mp h with h2 | h2
  · exact Or.inl h2
  · exact Or.inr (by simpa using h2)

/-- Boundaries appended by the accept step always carry offset 0. -/
lemma puoAccept_sample (seqLength running docLength : Nat) (sampleIdx : List (Nat × Int))
    (docIdx : List Nat) (tid : Nat) :
    ∀ b ∈ (puoAccept seqLength running docLength sampleIdx docIdx tid).2.1,
      b ∈ sampleIdx ∨ b.2 = 0 := by
  intro b hb
  unfold puoAccept at hb
  split at hb
  · rcases List.mem_append.mp hb with h2 | h2
    · exact Or.inl h2
    · right; have h3 : b = (docIdx.length, (0 : Int)) := by simpa using h2
      rw [h3]
  · split at hb
    · rcases List.mem_append.mp hb with h2 | h2
      · exact Or.inl h2
      · right; have h3 : b = (docIdx.length, (0 : Int)) := by simpa using h2
        rw [h3]
    · exact Or.inl hb

/-- The accept step appends at most one boundary. -/
lemma puoAccept_len (seqLength running docLength : Nat) (sampleIdx : List (Nat × Int))
    (docIdx : List Nat) (tid : Nat) :
    (puoAccept seqLength running docLength sampleIdx docIdx tid).2.1.length ≤
      sampleIdx.length + 1 := by
  unfold puoAccept
  split
  · simp
  · split <;> simp

/-- A candidate that passes the skip checks with `allow_chopped = false`
has length at most `seq_length + 1`. -/
lemma puoCheck_false_size (sizes : List Nat) (labelDs : Option (Nat → List Int))
    (seqLength id : Nat)
    (h : puoCheck sizes labelDs seqLength false id = some false) :
    sizes.getD id 0 ≤ seqLength + 1 := by
  unfold puoCheck at h
  split at h
  · simp_all
  · split at h
    · cases h
    · rename_i sz heq
      split at h
      · cases h
      · rename_i hsz
        have hgd : sizes.getD id 0 = sz := by
          rw [List.getD_eq_getElem?_getD, ← List.get?_eq_getElem?, heq]
          rfl
        omega

/-- A candidate that passes the skip checks while a label dataset exists
is not entirely masked over the first `seq_length + 1` positions. -/
lemma puoCheck_false_label (sizes : List Nat) (lds : Nat → List Int)
    (seqLength : Nat) (allowChopped : Bool) (id : Nat)
    (h : puoCheck sizes (some lds) seqLength allowChopped id = some false) :
    ((lds id).take (seqLength + 1)).all (· == -100) = false := by
  unfold puoCheck at h
  split at h
  · simpa using h
  · split at h
    · cases h
    · split at h
      · cases h
      · simpa using h

/-- `List.all` over a shorter prefix follows from `List.all` over a
longer one. -/
lemma all_take_mono {l : List Int} {p : Int → Bool} {a b : Nat} (hab : a ≤ b)
    (h : (l.take b).all p = true) : (l.take a).all p = true := by
  rw [List.all_eq_true] at h ⊢
  intro x hx
  apply h
  have h2 : l.take a = (l.take b).take a := by
    rw [List.take_take, Nat.min_eq_left hab]
  rw [h2] at hx
  exact List.take_subset _ _ hx

/-- Master invariant of the `pack_until_overflow` loop: on success every
output document was accumulated before or passed the skip checks, every
output boundary was accumulated before or has offset 0, and if the
accumulated `sample_idx` had not passed `num_samples` the output has
exactly `num_samples` boundaries. -/
lemma puoLoop_invariant (sizes : List Nat) (labelDs : Option (Nat → List Int))
    (documentsLen numSamples seqLength : Nat) (allowChopped : Bool)
    (shuffleFn : Nat → List Nat → List Nat) :
    ∀ fuel temp curr running shufCount sampleIdx docIdx si di,
      puoLoop sizes labelDs documentsLen numSamples seqLength allowChopped shuffleFn
        fuel temp curr running shufCount sampleIdx docIdx = .ok (si, di) →
      (∀ id ∈ di, id ∈ docIdx ∨
        puoCheck sizes labelDs seqLength allowChopped id = some false) ∧
      (∀ b ∈ si, b ∈ sampleIdx ∨ b.2 = 0) ∧
      (sampleIdx.length ≤ numSamples → si.length = numSamples) := by
  intro fuel
  induction fuel with
  | zero =>
    intro temp curr running shufCount sampleIdx docIdx si di h
    exact absurd h (by simp [puoLoop])
  | succ f ih =>
    intro temp curr running shufCount sampleIdx docIdx si di h
    rw [puoLoop] at h
    split at h
    · -- still building
      rename_i hlt
      split at h
      · cases h
      · rename_i tid htid
        split at h
        · cases h
        · -- skip
          exact ih _ _ _ _ _ _ _ _ h
        · -- accepted
          rename_i hchk
          split at h
          · cases h
          · rename_i docLength hsz
            have key : ∀ temp2 curr2 running2 shufCount2,
                puoLoop sizes labelDs documentsLen numSamples seqLength allowChopped shuffleFn
                  f temp2 curr2 running2 shufCount2
                  (puoAccept seqLength running docLength sampleIdx docIdx tid).2.1
                  (puoAccept seqLength running docLength sampleIdx docIdx tid).2.2 =
                    .ok (si, di) →
                (∀ id ∈ di, id ∈ docIdx ∨
                  puoCheck sizes labelDs seqLength allowChopped id = some false) ∧
                (∀ b ∈ si, b ∈ sampleIdx ∨ b.2 = 0) ∧
                (sampleIdx.length ≤ numSamples → si.length = numSamples) := by
              intro temp2 curr2 running2 shufCount2 hcall
              obtain ⟨A, B, C⟩ := ih temp2 curr2 running2 shufCount2 _ _ si di hcall
              refine ⟨?_, ?_, ?_⟩
              · intro id hid
                rcases A id hid with h2 | h2
                · rcases puoAccept_doc seqLength running docLength sampleIdx docIdx tid
                      id h2 with h3 | h3
                  · exact Or.inl h3
                  · exact Or.inr (h3 ▸ hchk)
                · exact Or.inr h2
              · intro b hb
                rcases B b hb with h2 | h2
                · exact puoAccept_sample seqLength running docLength sampleIdx docIdx tid b h2
                · exact Or.inr h2
              · intro hle
                apply C
                have h2 := puoAccept_len seqLength running docLength sampleIdx docIdx tid
                omega
            split at h
            · exact key _ _ _ _ h
            · exact key _ _ _ _ h
    · -- loop exit
      rename_i hge
      simp only [Except.ok.injEq, Prod.mk.injEq] at h
      obtain ⟨rfl, rfl⟩ := h
      refine ⟨fun id hid => Or.inl hid, fun b hb => Or.inl hb, fun hle => by omega⟩

/-- With no label dataset the `pack_until_overflow` loop never raises an
`AttributeError`: it performs no label access. -/
lemma puoLoop_no_attrError (sizes : List Nat)
    (documentsLen numSamples seqLength : Nat) (allowChopped : Bool)
    (shuffleFn : Nat → List Nat → List Nat) :
    ∀ fuel temp curr running shufCount sampleIdx docIdx,
      puoLoop sizes none documentsLen numSamples seqLength allowChopped shuffleFn
        fuel temp curr running shufCount sampleIdx docIdx ≠ .error .attributeError := by
  intro fuel
  induction fuel with
  | zero =>
    intro temp curr running shufCount sampleIdx docIdx
    simp [puoLoop]
  | succ f ih =>
    intro temp curr running shufCount sampleIdx docIdx h
    rw [puoLoop] at h
    split at h
    · split at h
      · cases h
      · split at h
        · cases h
        · exact ih _ _ _ _ _ _ h
        · split at h
          · cases h
          · split at h
            · exact ih _ _ _ _ _ _ h
            · exact ih _ _ _ _ _ _ h
    · cases h

/-- Master invariant of the `unpacked` loop with a label dataset: on
success every output document was accumulated before or is a document
that passed the checks (its first `seq_length` label positions are not
all `-100`, and under `allow_chopped = false` its length is at most
`seq_length + 1`); and the output has exactly `num_samples + 1` documents
when the accumulator had not yet passed that count. -/
lemma unpackedLoop_invariant (sizes : List Nat) (lds : Nat → List Int)
    (documentsLen numSamples seqLength : Nat) (allowChopped : Bool) :
    ∀ fuel doc_i docIdx di,
      unpackedLoop sizes (some lds) documentsLen numSamples seqLength allowChopped
        fuel doc_i docIdx = .ok di →
      (∀ id ∈ di, id ∈ docIdx ∨
        (((lds id).take seqLength).all (· == -100) = false ∧
          (allowChopped = false → sizes.getD id 0 ≤ seqLength + 1))) ∧
      (docIdx.length ≤ numSamples + 1 → di.length = numSamples + 1) := by
  intro fuel
  induction fuel with
  | zero =>
    intro doc_i docIdx di h
    exact absurd h (by simp [unpackedLoop])
  | succ f ih =>
    intro doc_i docIdx di h
    rw [unpackedLoop] at h
    by_cases hle : docIdx.length ≤ numSamples
    · rw [if_pos hle] at h
      rcases hcs : (if allowChopped = true then some false
          else
            match sizes.get? doc_i with
            | none => none
            | some sz => some (decide (seqLength + 1 < sz))) with _ | b
      · rw [hcs] at h
        exact Except.noConfusion h
      · rw [hcs] at h
        cases b with
        | true => exact ih _ _ _ h
        | false =>
          have hsize : allowChopped = false → sizes.getD doc_i 0 ≤ seqLength + 1 := by
            intro hac
            subst hac
            rw [if_neg (by simp)] at hcs
            rcases heq : sizes.get? doc_i with _ | sz
            · rw [heq] at hcs
              exact Option.noConfusion hcs
            · rw [heq] at hcs
              have h5 : decide (seqLength + 1 < sz) = false := Option.some.inj hcs
              have h6 : ¬ (seqLength + 1 < sz) := of_decide_eq_false h5
              have hgd : sizes.getD doc_i 0 = sz := by
                rw [List.getD_eq_getElem?_getD, ← List.get?_eq_getElem?, heq]
                rfl
              omega
          by_cases hmask : ((lds doc_i).take seqLength).all (· == -100) = true
          · have h2 : unpackedLoop sizes (some lds) documentsLen numSamples seqLength
                allowChopped f ((doc_i + 1) % documentsLen) docIdx = .ok di := by
              have h3 : (if ((lds doc_i).take seqLength).all (· == -100) = true then
                  unpackedLoop sizes (some lds) documentsLen numSamples seqLength allowChopped
                    f ((doc_i + 1) % documentsLen) docIdx
                else
                  unpackedLoop sizes (some lds) documentsLen numSamples seqLength allowChopped
                    f ((doc_i + 1) % documentsLen) (docIdx ++ [doc_i])) = Except.ok di := h
              rwa [if_pos hmask] at h3
            exact ih _ _ _ h2
          · have h2 : unpackedLoop sizes (some lds) documentsLen numSamples seqLength
                allowChopped f ((doc_i + 1) % documentsLen) (docIdx ++ [doc_i]) = .ok di := by
              have h3 : (if ((lds doc_i).take seqLength).all (· == -100) = true then
                  unpackedLoop sizes (some lds) documentsLen numSamples seqLength allowChopped
                    f ((doc_i + 1) % documentsLen) docIdx
                else
                  unpackedLoop sizes (some lds) documentsLen numSamples seqLength allowChopped
                    f ((doc_i + 1) % documentsLen) (docIdx ++ [doc_i])) = Except.ok di := h
              rwa [if_neg hmask] at h3
            obtain ⟨A, B⟩ := ih _ _ _ h2
            refine ⟨?_, ?_⟩
            · intro id hid
              rcases A id hid with h3 | h3
              · rcases List.mem_append.mp h3 with h4 | h4
                · exact Or.inl h4
                · have h5 : id = doc_i := by simpa using h4
                  subst h5
                  exact Or.inr ⟨Bool.eq_false_iff.mpr hmask, hsize⟩
              · exact Or.inr h3
            · intro h3
              apply B
              simp only [List.length_append, List.length_singleton]
              omega
    · rw [if_neg hle] at h
      have h2 : di = docIdx := (Except.ok.inj h).symm
      subst h2
      exact ⟨fun id hid => Or.inl hid, fun h3 => by omega⟩

/-- With no label dataset the `unpacked` loop can never complete: every
accept path dereferences the missing label dataset first. -/
lemma unpackedLoop_none_label (sizes : List Nat)
    (documentsLen numSamples seqLength : Nat) (allowChopped : Bool) :
    ∀ fuel doc_i docIdx r,
      docIdx.length ≤ numSamples →
      unpackedLoop sizes none documentsLen numSamples seqLength allowChopped
        fuel doc_i docIdx ≠ .ok r := by
  intro fuel
  induction fuel with
  | zero =>
    intro doc_i docIdx r hle
    simp [unpackedLoop]
  | succ f ih =>
    intro doc_i docIdx r hle h
    rw [unpackedLoop] at h
    split at h
    · split at h
      · cases h
      · exact ih _ _ _ hle h
      · cases h
    · omega

end BoundaryBuilders

/-- C4: for the `pack_until_overflow` and `unpacked` builders with
`allow_chopped = false`, every document id placed into the built
`doc_idx` has size at most `seq_length + 1` (longer candidates are
skipped by the size test on the very id being considered), and every
built boundary pair has offset 0 — documents are never split or
truncated. -/
theorem claim_C4 (sizes : List Nat) (labelDs : Option (Nat → List Int))
    (documentsLen numSamples seqLength fuel fuel2 : Nat)
    (shuffleFn : Nat → List Nat → List Nat)
    (di si shi di2 si2 shi2) :
    (pack_until_overflow_build sizes labelDs documentsLen numSamples seqLength false shuffleFn
        fuel = .ok (di, si, shi) →
      (∀ id ∈ di, sizes.getD id 0 ≤ seqLength + 1) ∧ (∀ b ∈ si, b.2 = 0)) ∧
    (unpacked_build sizes labelDs documentsLen numSamples seqLength false shuffleFn
        fuel2 = .ok (di2, si2, shi2) →
      (∀ id ∈ di2, sizes.getD id 0 ≤ seqLength + 1) ∧ (∀ b ∈ si2, b.2 = 0)) := by
  constructor
  · intro h
    rw [pack_until_overflow_build] at h
    split at h
    · cases h
    · rename_i sampleIdx0 docIdx0 hres
      simp only [Except.ok.injEq, Prod.mk.injEq] at h
      obtain ⟨h1, h2, h3⟩ := h
      subst h1; subst h2; subst h3
      obtain ⟨A, B, -⟩ :=
        puoLoop_invariant sizes labelDs documentsLen numSamples seqLength false shuffleFn
          fuel _ 0 0 2 [] [] sampleIdx0 docIdx0 hres
      refine ⟨?_, ?_⟩
      · intro id hid
        rcases A id hid with h2 | h2
        · cases h2
        · exact puoCheck_false_size sizes labelDs seqLength id h2
      · intro b hb
        rcases List.mem_append.mp hb with h2 | h2
        · rcases B b h2 with h3 | h3
          · cases h3
          · exact h3
        · have h3 : b = (docIdx0.length, (0 : Int)) := by simpa using h2
          rw [h3]
  · intro h
    rw [unpacked_build] at h
    split at h
    · cases h
    · rename_i dr hres
      simp only [Except.ok.injEq, Prod.mk.injEq] at h
      obtain ⟨h1, h2, h3⟩ := h
      subst h1; subst h2; subst h3
      cases labelDs with
      | none =>
        exact absurd hres
          (unpackedLoop_none_label sizes documentsLen numSamples seqLength false
            fuel2 0 [] dr (by simp))
      | some lds =>
        obtain ⟨A, -⟩ :=
          unpackedLoop_invariant sizes lds documentsLen numSamples seqLength false
            fuel2 0 [] dr hres
        refine ⟨?_, ?_⟩
        · intro id hid
          rcases A id hid with h2 | h2
          · cases h2
          · exact h2.2 rfl
        · intro b hb
          simp only [List.mem_map, List.mem_range] at hb
          obtain ⟨i, -, rfl⟩ := hb
          rfl

/-- C4 witness: a concrete successful run of both builders with
`allow_chopped = false` (two documents of size 2, `seq_length = 3`). -/
theorem claim_C4_witness :
    ([2, 2] : List Nat).getD 0 0 ≤ 3 + 1 ∧ ([2, 2] : List Nat).getD 1 0 ≤ 3 + 1 := by
  have h := claim_C4 [2, 2] (some (fun _ => [5])) 2 1 3 10 5 idShuffle
    [0] [(0, 0), (1, 0)] [0] [0, 1] [(0, 0), (1, 0)] [0]
  exact ⟨(h.1 (by rfl)).1 0 (by simp), (h.2 (by rfl)).1 1 (by simp)⟩

/-- C5 counterexample: the `unpacked` builder with NO label dataset does
not complete without error — its very first candidate evaluation calls
`label_dataset.get(doc_i)` on `None` and fails with an
`AttributeError`. -/
theorem claim_C5_counterexample :
    unpacked_build [2, 2] none 2 1 3 true idShuffle 10 = .error .attributeError := by
  rfl

/-- C5 amended: when a label dataset exists, both the
`pack_until_overflow` and `unpacked` builders skip every candidate whose
label span over the first `seq_length + 1` positions is entirely `-100`
(it is never selected into `doc_idx`); when no label dataset is
configured, the `pack_until_overflow` builder performs no label access
(it can never fail with an attribute error), while the `unpacked` builder
dereferences the missing label dataset unconditionally and can never
complete successfully. -/
theorem claim_C5 (sizes : List Nat) (lds : Nat → List Int)
    (documentsLen numSamples seqLength fuel fuel2 fuel3 fuel4 : Nat)
    (allowChopped : Bool) (shuffleFn : Nat → List Nat → List Nat)
    (di si shi di2 si2 shi2) :
    (pack_until_overflow_build sizes (some lds) documentsLen numSamples seqLength allowChopped
        shuffleFn fuel = .ok (di, si, shi) →
      ∀ id ∈ di, ((lds id).take (seqLength + 1)).all (· == -100) = false) ∧
    (unpacked_build sizes (some lds) documentsLen numSamples seqLength allowChopped
        shuffleFn fuel2 = .ok (di2, si2, shi2) →
      ∀ id ∈ di2, ((lds id).take (seqLength + 1)).all (· == -100) = false) ∧
    isAttrError (pack_until_overflow_build sizes none documentsLen numSamples seqLength
        allowChopped shuffleFn fuel3) = false ∧
    exceptIsOk (unpacked_build sizes none documentsLen numSamples seqLength
        allowChopped shuffleFn fuel4) = false := by
  refine ⟨?_, ?_, ?_, ?_⟩
  · intro h
    rw [pack_until_overflow_build] at h
    split at h
    · cases h
    · rename_i sampleIdx0 docIdx0 hres
      simp only [Except.ok.injEq, Prod.mk.injEq] at h
      obtain ⟨h1, h2, h3⟩ := h
      subst h1; subst h2; subst h3
      obtain ⟨A, -, -⟩ :=
        puoLoop_invariant sizes (some lds) documentsLen numSamples seqLength allowChopped
          shuffleFn fuel _ 0 0 2 [] [] sampleIdx0 docIdx0 hres
      intro id hid
      rcases A id hid with h2 | h2
      · cases h2
      · exact puoCheck_false_label sizes lds seqLength allowChopped id h2
  · intro h
    rw [unpacked_build] at h
    split at h
    · cases h
    · rename_i dr hres
      simp only [Except.ok.injEq, Prod.mk.injEq] at h
      obtain ⟨h1, h2, h3⟩ := h
      subst h1; subst h2; subst h3
      obtain ⟨A, -⟩ :=
        unpackedLoop_invariant sizes lds documentsLen numSamples seqLength allowChopped
          fuel2 0 [] dr hres
      intro id hid
      rcases A id hid with h2 | h2
      · cases h2
      · cases hb2 : ((lds id).take (seqLength + 1)).all (· == -100) with
        | false => rfl
        | true =>
          have h5 : ((lds id).take seqLength).all (· == -100) = true :=
            all_take_mono (by omega) hb2
          rw [h2.1] at h5
          cases h5
  · rw [pack_until_overflow_build]
    rcases hres : puoLoop sizes none documentsLen numSamples seqLength allowChopped shuffleFn
        fuel3 (shuffleFn 1 (List.range documentsLen)) 0 0 2 [] [] with e | pr
    · have hne := puoLoop_no_attrError sizes documentsLen numSamples seqLength allowChopped
        shuffleFn fuel3 (shuffleFn 1 (List.range documentsLen)) 0 0 2 [] []
      rw [hres] at hne
      cases e
      · rfl
      · rfl
      · exact absurd rfl hne
    · obtain ⟨a, b⟩ := pr
      rfl
  · rw [unpacked_build]
    rcases hres : unpackedLoop sizes none documentsLen numSamples seqLength allowChopped
        fuel4 0 [] with e | dr
    · rfl
    · exact absurd hres
        (unpackedLoop_none_label sizes documentsLen numSamples seqLength allowChopped
          fuel4 0 [] dr (by simp))

section PackedSpans

/-- Sum of document sizes over a `range` of `doc_idx` positions starting
at `p`. -/
lemma sumSizes_take_add (sizes docIdx : List Nat) (p : Nat) :
    ∀ q, p + q ≤ docIdx.length →
      sumSizes sizes (docIdx.take (p + q)) =
        sumSizes sizes (docIdx.take p) +
          ((List.range q).map (fun j => docSizeAt sizes docIdx (p + j))).sum := by
  intro q
  induction q with
  | zero => simp
  | succ q ih =>
    intro hq
    have hq2 : p + q ≤ docIdx.length := by omega
    have hlt : p + q < docIdx.length := by omega
    have hgd : docIdx.getD (p + q) 0 = docIdx[p + q] := by
      rw [List.getD_eq_getElem?_getD, List.getElem?_eq_getElem hlt]
      rfl
    have h2 : docIdx.take (p + (q + 1)) = docIdx.take (p + q) ++ [docIdx.getD (p + q) 0] := by
      have h3 : p + (q + 1) = (p + q) + 1 := by omega
      rw [h3, List.take_succ, List.getElem?_eq_getElem hlt, hgd]
      rfl
    have happ : sumSizes sizes (docIdx.take (p + q) ++ [docIdx.getD (p + q) 0]) =
        sumSizes sizes (docIdx.take (p + q)) + sizes.getD (docIdx.getD (p + q) 0) 0 := by
      simp [sumSizes]
    have hr : ((List.range (q + 1)).map (fun j => docSizeAt sizes docIdx (p + j))).sum =
        ((List.range q).map (fun j => docSizeAt sizes docIdx (p + j))).sum +
          docSizeAt sizes docIdx (p + q) := by
      rw [List.range_succ]
      simp
    rw [h2, happ, hr, ih hq2]
    try simp only [docSizeAt]
    try omega

/-- The same sum, over the `take` of a `drop`. -/
lemma sumSizes_drop_take (sizes docIdx : List Nat) (p : Nat) :
    ∀ q, p + q ≤ docIdx.length →
      sumSizes sizes ((docIdx.drop p).take q) =
        ((List.range q).map (fun j => docSizeAt sizes docIdx (p + j))).sum := by
  intro q
  induction q with
  | zero => simp [sumSizes]
  | succ q ih =>
    intro hq
    have hq2 : p + q ≤ docIdx.length := by omega
    have hlt : p + q < docIdx.length := by omega
    have hgd : docIdx.getD (p + q) 0 = docIdx[p + q] := by
      rw [List.getD_eq_getElem?_getD, List.getElem?_eq_getElem hlt]
      rfl
    have h2 : (docIdx.drop p).take (q + 1) =
        (docIdx.drop p).take q ++ [docIdx.getD (p + q) 0] := by
      rw [List.take_succ, List.getElem?_drop, List.getElem?_eq_getElem hlt, hgd]
      rfl
    have happ : sumSizes sizes ((docIdx.drop p).take q ++ [docIdx.getD (p + q) 0]) =
        sumSizes sizes ((docIdx.drop p).take q) + sizes.getD (docIdx.getD (p + q) 0) 0 := by
      simp [sumSizes]
    have hr : ((List.range (q + 1)).map (fun j => docSizeAt sizes docIdx (p + j))).sum =
        ((List.range q).map (fun j => docSizeAt sizes docIdx (p + j))).sum +
          docSizeAt sizes docIdx (p + q) := by
      rw [List.range_succ]
      simp
    rw [h2, happ, hr, ih hq2]
    try simp only [docSizeAt]
    try omega

/-- Splitting a `take` sum at an interior position. -/
lemma sumSizes_take_split (sizes docIdx : List Nat) (p q : Nat)
    (h : p + q ≤ docIdx.length) :
    sumSizes sizes (docIdx.take (p + q)) =
      sumSizes sizes (docIdx.take p) + sumSizes sizes ((docIdx.drop p).take q) := by
  rw [sumSizes_take_add sizes docIdx p q h, sumSizes_drop_take sizes docIdx p q h]

/-- Splitting a `take` sum one position after `p1`: the first `p1`
documents, the document at `p1`, and the interior documents up to
`p2`. -/
lemma sumSizes_take_between (sizes docIdx : List Nat) (p1 p2 : Nat)
    (hlt : p1 < p2) (hb : p2 ≤ docIdx.length) :
    sumSizes sizes (docIdx.take p2) =
      sumSizes sizes (docIdx.take p1) + docSizeAt sizes docIdx p1 +
        ((List.range (p2 - p1 - 1)).map (fun j => docSizeAt sizes docIdx (p1 + 1 + j))).sum := by
  have h2 := sumSizes_take_add sizes docIdx (p1 + 1) (p2 - p1 - 1) (by omega)
  rw [show p1 + 1 + (p2 - p1 - 1) = p2 from by omega] at h2
  have h3 := sumSizes_take_add sizes docIdx p1 1 (by omega)
  have h4 : ((List.range 1).map (fun j => docSizeAt sizes docIdx (p1 + j))).sum =
      docSizeAt sizes docIdx p1 := by
    simp [List.range_succ]
  rw [h4] at h3
  rw [h2, h3]

/-- The claim's span-token count between two boundary pairs equals the
difference of their virtual stream positions plus one, whenever the
second boundary is a valid `doc_idx` position at or after the first. -/
lemma spanTokens_eq_vpos (sizes docIdx : List Nat) (a b : Nat × Int)
    (hab : a.1 ≤ b.1) (hb : b.1 < docIdx.length) :
    spanTokens sizes docIdx a b =
      vposOf sizes docIdx b.1 b.2 - vposOf sizes docIdx a.1 a.2 + 1 := by
  rcases a with ⟨p1, o1⟩
  rcases b with ⟨p2, o2⟩
  have hab2 : p1 ≤ p2 := hab
  have hb2 : p2 < docIdx.length := hb
  by_cases hpp : p1 = p2
  · subst hpp
    simp only [spanTokens, vposOf, if_true]
    ring
  · have hlt : p1 < p2 := lt_of_le_of_ne hab2 hpp
    simp only [spanTokens, vposOf]
    rw [if_neg hpp]
    have hkey := sumSizes_take_between sizes docIdx p1 p2 hlt (by omega)
    have hS : ((List.range (p2 - p1 - 1)).map
        (fun j => (docSizeAt sizes docIdx (p1 + 1 + j) : Int))).sum =
        ((((List.range (p2 - p1 - 1)).map
          (fun j => docSizeAt sizes docIdx (p1 + 1 + j))).sum : Nat) : Int) := by
      rw [Nat.cast_list_sum, List.map_map]
      rfl
    rw [hS]
    have hkeyZ : (sumSizes sizes (docIdx.take p2) : Int) =
        (sumSizes sizes (docIdx.take p1) : Int) + (docSizeAt sizes docIdx p1 : Int) +
          ((((List.range (p2 - p1 - 1)).map
            (fun j => docSizeAt sizes docIdx (p1 + 1 + j))).sum : Nat) : Int) := by
      exact_mod_cast hkey
    omega

/-- Correctness of the inner document-advancing loop: under valid ids, a
nonnegative offset, a positive remaining length and enough tokens left in
the suffix, it succeeds, stays inside the suffix, returns a nonnegative
offset, and consumes exactly `remaining - 1` new stream positions. -/
lemma advanceLoop_spec (sizes : List Nat) :
    ∀ (docs : List Nat) (offset rem : Int),
      (∀ d ∈ docs, d < sizes.length) →
      0 ≤ offset → 1 ≤ rem →
      rem ≤ (sumSizes sizes docs : Int) - offset →
      ∃ k off2, advanceLoop sizes docs offset rem = some (k, off2) ∧
        k < docs.length ∧ 0 ≤ off2 ∧
        (sumSizes sizes (docs.take k) : Int) + off2 = offset + rem - 1 := by
  intro docs
  induction docs with
  | nil =>
    intro offset rem hv h0 h1 h2
    exfalso
    simp only [sumSizes, List.map_nil, List.sum_nil, Nat.cast_zero] at h2
    omega
  | cons d rest ih =>
    intro offset rem hv h0 h1 h2
    have hd : d < sizes.length := hv d (by simp)
    have hget : sizes.get? d = some (sizes.getD d 0) := by
      rw [List.get?_eq_getElem?, List.getElem?_eq_getElem hd, List.getD_eq_getElem?_getD,
        List.getElem?_eq_getElem hd]
      rfl
    have hsum : (sumSizes sizes (d :: rest) : Int) =
        (sizes.getD d 0 : Int) + (sumSizes sizes rest : Int) := by
      simp only [sumSizes, List.map_cons, List.sum_cons]
      push_cast
      ring
    rw [hsum] at h2
    by_cases hc : rem - ((sizes.getD d 0 : Int) - offset) ≤ 0
    · refine ⟨0, offset + (rem - ((sizes.getD d 0 : Int) - offset)) +
        ((sizes.getD d 0 : Int) - offset) - 1, ?_, by simp, by omega, ?_⟩
      · simp only [advanceLoop, hget, if_pos hc]
      · simp only [List.take_zero, sumSizes, List.map_nil, List.sum_nil, Nat.cast_zero]
        ring
    · obtain ⟨k, off2, hadv, hk, hoff, heq⟩ := ih 0 (rem - ((sizes.getD d 0 : Int) - offset))
        (fun x hx => hv x (by simp [hx])) le_rfl (by omega) (by omega)
      refine ⟨k + 1, off2, ?_, by simp only [List.length_cons]; omega, hoff, ?_⟩
      · simp only [advanceLoop, hget, if_neg hc, hadv]
        rfl
      · have htake : (sumSizes sizes ((d :: rest).take (k + 1)) : Int) =
            (sizes.getD d 0 : Int) + (sumSizes sizes (rest.take k) : Int) := by
          simp only [List.take_succ_cons, sumSizes, List.map_cons, List.sum_cons]
          push_cast
          ring
        rw [htake]
        omega

/-- Correctness of the outer sample loop: given enough remaining tokens,
each recorded boundary advances the virtual stream position by exactly
`seq_length`, stays inside `doc_idx` and keeps offsets nonnegative. -/
lemma sampleLoop_spec (sizes docIdx : List Nat) (seqLength : Nat)
    (hv : ∀ d ∈ docIdx, d < sizes.length) :
    ∀ (n pos : Nat) (off : Int), 0 ≤ off →
      (n : Int) * seqLength + 1 ≤ (sumSizes sizes docIdx : Int) -
        vposOf sizes docIdx pos off →
      ∃ bs, sampleLoop sizes docIdx seqLength n pos off = some bs ∧ bs.length = n ∧
        List.Chain' (fun a b : Nat × Int =>
          a.1 ≤ b.1 ∧ b.1 < docIdx.length ∧ 0 ≤ b.2 ∧
          vposOf sizes docIdx b.1 b.2 = vposOf sizes docIdx a.1 a.2 + seqLength)
          ((pos, off) :: bs) := by
  intro n
  induction n with
  | zero =>
    intro pos off h0 hav
    exact ⟨[], rfl, rfl, List.chain'_singleton _⟩
  | succ n ih =>
    intro pos off h0 hav
    have hav2 : (n : Int) * seqLength + (seqLength : Int) + 1 ≤
        (sumSizes sizes docIdx : Int) - vposOf sizes docIdx pos off := by
      have h2 : ((n + 1 : Nat) : Int) * seqLength = (n : Int) * seqLength + seqLength := by
        push_cast
        ring
      omega
    have hnl : 0 ≤ (n : Int) * seqLength := by positivity
    have hvp : vposOf sizes docIdx pos off = (sumSizes sizes (docIdx.take pos) : Int) + off :=
      rfl
    have hsplit : (sumSizes sizes docIdx : Int) = (sumSizes sizes (docIdx.take pos) : Int) +
        (sumSizes sizes ((docIdx.drop pos)) : Int) := by
      have h2 : sumSizes sizes docIdx =
          sumSizes sizes (docIdx.take pos) + sumSizes sizes (docIdx.drop pos) := by
        rw [sumSizes, sumSizes, sumSizes, ← List.sum_append, ← List.map_append,
          List.take_append_drop]
      exact_mod_cast h2
    obtain ⟨k, off2, hadv, hk, hoff2, heq⟩ := advanceLoop_spec sizes (docIdx.drop pos) off
      ((seqLength : Int) + 1)
      (fun d hd2 => hv d (List.mem_of_mem_drop hd2))
      h0 (by omega) (by omega)
    have hk2 : pos + k < docIdx.length := by
      have h3 := hk
      rw [List.length_drop] at h3
      omega
    have hvp2 : vposOf sizes docIdx (pos + k) off2 =
        vposOf sizes docIdx pos off + seqLength := by
      have h3 : sumSizes sizes (docIdx.take (pos + k)) =
          sumSizes sizes (docIdx.take pos) + sumSizes sizes ((docIdx.drop pos).take k) := by
        exact sumSizes_take_split sizes docIdx pos k (by omega)
      have h4 : (sumSizes sizes (docIdx.take (pos + k)) : Int) =
          (sumSizes sizes (docIdx.take pos) : Int) +
            (sumSizes sizes ((docIdx.drop pos).take k) : Int) := by
        exact_mod_cast h3
      rw [vposOf, vposOf, h4]
      omega
    obtain ⟨bs, hloop, hlen, hchain⟩ := ih (pos + k) off2 hoff2 (by rw [hvp2]; omega)
    refine ⟨(pos + k, off2) :: bs, ?_, by simp [hlen], ?_⟩
    · simp only [sampleLoop, hadv, hloop]
    · rw [List.chain'_cons]
      exact ⟨⟨Nat.le_add_right pos k, hk2, hoff2, hvp2⟩, hchain⟩

/-- Full specification of `_build_sample_idx` under valid inputs: it
succeeds, produces `num_samples + 1` boundary pairs starting with
`(0, 0)`, and every adjacent pair spans exactly `seq_length + 1`
tokens. -/
lemma build_sample_idx_spec (sizes docIdx : List Nat)
    (seqLength numEpochs tokensPerEpoch : Nat)
    (hv : ∀ d ∈ docIdx, d < sizes.length) (hL : 0 < seqLength)
    (htot : sumSizes sizes docIdx = numEpochs * tokensPerEpoch)
    (h1 : 1 ≤ numEpochs * tokensPerEpoch) :
    ∃ samples,
      build_sample_idx sizes docIdx seqLength numEpochs tokensPerEpoch = some samples ∧
      samples.length = (numEpochs * tokensPerEpoch - 1) / seqLength + 1 ∧
      samples.getD 0 (0, 0) = (0, 0) ∧
      ∀ i, i + 1 < samples.length →
        spanTokens sizes docIdx (samples.getD i (0, 0)) (samples.getD (i + 1) (0, 0)) =
          (seqLength : Int) + 1 := by
  have hbound : ((numEpochs * tokensPerEpoch - 1) / seqLength) * seqLength + 1 ≤
      numEpochs * tokensPerEpoch := by
    have h2 := Nat.div_mul_le_self (numEpochs * tokensPerEpoch - 1) seqLength
    omega
  have hav : (((numEpochs * tokensPerEpoch - 1) / seqLength : Nat) : Int) *
      (seqLength : Int) + 1 ≤
      (sumSizes sizes docIdx : Int) - vposOf sizes docIdx 0 0 := by
    have h3 : vposOf sizes docIdx 0 0 = 0 := by
      simp [vposOf, sumSizes]
    rw [h3, htot]
    have h5 : (((numEpochs * tokensPerEpoch - 1) / seqLength * seqLength + 1 : Nat) : Int) ≤
        ((numEpochs * tokensPerEpoch : Nat) : Int) := Nat.cast_le.mpr hbound
    have h6 : (((numEpochs * tokensPerEpoch - 1) / seqLength * seqLength + 1 : Nat) : Int) =
        (((numEpochs * tokensPerEpoch - 1) / seqLength : Nat) : Int) * (seqLength : Int) + 1 := by
      push_cast
      ring
    omega
  obtain ⟨bs, hloop, hlen, hchain⟩ := sampleLoop_spec sizes docIdx seqLength hv
    ((numEpochs * tokensPerEpoch - 1) / seqLength) 0 0 le_rfl hav
  refine ⟨(0, 0) :: bs, ?_, by simp [hlen], rfl, ?_⟩
  · rw [build_sample_idx, hloop]
  · intro i hi
    have hchain2 := List.chain'_iff_get.mp hchain
    have hilen : i < ((0, (0 : Int)) :: bs).length - 1 := by
      simpa using hi
    have hR := hchain2 i hilen
    have hgd1 : ((0, (0 : Int)) :: bs).getD i (0, 0) =
        ((0, (0 : Int)) :: bs).get ⟨i, by omega⟩ := by
      rw [List.getD_eq_getElem?_getD, List.getElem?_eq_getElem (by omega :
        i < ((0, (0 : Int)) :: bs).length)]
      rfl
    have hgd2 : ((0, (0 : Int)) :: bs).getD (i + 1) (0, 0) =
        ((0, (0 : Int)) :: bs).get ⟨i + 1, by omega⟩ := by
      rw [List.getD_eq_getElem?_getD, List.getElem?_eq_getElem (by omega :
        i + 1 < ((0, (0 : Int)) :: bs).length)]
      rfl
    rw [hgd1, hgd2]
    obtain ⟨hle2, hblen, hboff, hbvp⟩ := hR
    rw [spanTokens_eq_vpos sizes docIdx _ _ hle2 hblen, hbvp]
    ring

end PackedSpans

/-- Facts about a packed document order: all ids are valid, the total
token count is `num_epochs * tokens_per_epoch`, and that total is
positive. -/
lemma build_doc_idx_facts (documents sizes : List Nat) (numEpochs tokensPerEpoch : Nat)
    (shuffleFn : Nat → List Nat → List Nat)
    (hperm : ∀ k l, (shuffleFn k l).Perm l)
    (hvalid : ∀ d ∈ documents, d < sizes.length)
    (hpos : ∀ s ∈ sizes, 0 < s)
    (hdocs : documents ≠ [])
    (hE : 0 < numEpochs)
    (hT : tokensPerEpoch = num_tokens documents sizes) :
    (∀ d ∈ build_doc_idx shuffleFn documents numEpochs, d < sizes.length) ∧
    sumSizes sizes (build_doc_idx shuffleFn documents numEpochs) =
      numEpochs * tokensPerEpoch ∧
    1 ≤ numEpochs * tokensPerEpoch := by
  have hpermD : (build_doc_idx shuffleFn documents numEpochs).Perm
      ((List.replicate numEpochs documents).flatten) := hperm 0 _
  have hv : ∀ d ∈ build_doc_idx shuffleFn documents numEpochs, d < sizes.length := by
    intro d hd
    have h2 : d ∈ (List.replicate numEpochs documents).flatten := hpermD.mem_iff.mp hd
    obtain ⟨l, hl, hdl⟩ := List.mem_flatten.mp h2
    have h3 : l = documents := List.eq_of_mem_replicate hl
    exact hvalid d (h3 ▸ hdl)
  have htot : sumSizes sizes (build_doc_idx shuffleFn documents numEpochs) =
      numEpochs * tokensPerEpoch := by
    have h2 : (build_doc_idx shuffleFn documents numEpochs).map
        (fun d => sizes.getD d 0) |>.Perm
          (((List.replicate numEpochs documents).flatten).map (fun d => sizes.getD d 0)) :=
      hpermD.map _
    have h3 : sumSizes sizes (build_doc_idx shuffleFn documents numEpochs) =
        sumSizes sizes ((List.replicate numEpochs documents).flatten) := h2.sum_eq
    rw [h3, hT]
    rw [sumSizes, num_tokens]
    rw [List.map_flatten, List.map_replicate, List.sum_flatten, List.map_replicate,
      List.sum_replicate, smul_eq_mul]
  have hT1 : 1 ≤ tokensPerEpoch := by
    rcases documents with _ | ⟨d0, rest⟩
    · exact absurd rfl hdocs
    · have h2 : sizes.getD d0 0 ∈ sizes := by
        have h3 : d0 < sizes.length := hvalid d0 (by simp)
        rw [List.getD_eq_getElem?_getD, List.getElem?_eq_getElem h3]
        exact List.getElem_mem h3
      have h4 : 0 < sizes.getD d0 0 := hpos _ h2
      have h5 : sizes.getD d0 0 ≤ num_tokens (d0 :: rest) sizes := by
        rw [num_tokens]
        exact List.single_le_sum (fun x _ => Nat.zero_le x) _ (by simp)
      omega
  exact ⟨hv, htot, Nat.one_le_iff_ne_zero.mpr (by positivity)⟩

/-- C1: for every sizes array of positive document lengths and every
`doc_idx` produced by the packed document order builder (a seeded
permutation of `num_epochs` replicas of `documents`), `_build_sample_idx`
succeeds, and every pair of consecutive boundary pairs delimits a token
span of exactly `seq_length + 1` tokens — counting from the first
offset in its document through the second offset in its document,
inclusive. -/
theorem claim_C1 (documents sizes : List Nat) (seqLength numEpochs tokensPerEpoch : Nat)
    (shuffleFn : Nat → List Nat → List Nat)
    (hperm : ∀ k l, (shuffleFn k l).Perm l)
    (hvalid : ∀ d ∈ documents, d < sizes.length)
    (hpos : ∀ s ∈ sizes, 0 < s)
    (hdocs : documents ≠ [])
    (hL : 0 < seqLength) (hE : 0 < numEpochs)
    (hT : tokensPerEpoch = num_tokens documents sizes) :
    ∃ samples,
      build_sample_idx sizes (build_doc_idx shuffleFn documents numEpochs)
        seqLength numEpochs tokensPerEpoch = some samples ∧
      samples.length = (numEpochs * tokensPerEpoch - 1) / seqLength + 1 ∧
      ∀ i, i + 1 < samples.length →
        spanTokens sizes (build_doc_idx shuffleFn documents numEpochs)
          (samples.getD i (0, 0)) (samples.getD (i + 1) (0, 0)) =
          (seqLength : Int) + 1 := by
  obtain ⟨hv, htot, h1⟩ := build_doc_idx_facts documents sizes numEpochs tokensPerEpoch
    shuffleFn hperm hvalid hpos hdocs hE hT
  obtain ⟨samples, hbuild, hlen, -, hspan⟩ :=
    build_sample_idx_spec sizes (build_doc_idx shuffleFn documents numEpochs)
      seqLength numEpochs tokensPerEpoch hv hL htot h1
  exact ⟨samples, hbuild, hlen, hspan⟩

/-- C1 witness: documents `[0, 1]` with sizes `[3, 2]`, `seq_length = 2`,
one epoch; the packed builder succeeds. -/
theorem claim_C1_witness :
    (build_sample_idx [3, 2] (build_doc_idx idShuffle [0, 1] 1) 2 1
      (num_tokens [0, 1] [3, 2])).isSome = true := by
  obtain ⟨samples, hbuild, -, -⟩ := claim_C1 [0, 1] [3, 2] 2 1 (num_tokens [0, 1] [3, 2])
    idShuffle (fun k l => List.Perm.refl l) (by decide) (by decide) (by decide)
    (by decide) (by decide) rfl
  rw [hbuild]
  rfl

/-- The warning test never fires when the shuffle array is exactly one
shorter than the sample array. -/
lemma lengthMismatchWarning_consistent (S P : Nat) (hP : 1 ≤ P) (h : S + 1 = P) :
    lengthMismatchWarning S P = false := by
  rw [lengthMismatchWarning, decide_eq_false_iff_not]
  simp only [ne_eq, not_not]
  omega

/-- C6: every packing policy builds `len(sample_idx) = number of samples
+ 1` together with `len(shuffle_idx) = len(sample_idx) - 1` — for
`packed` the sample count is the recomputed `(num_epochs *
tokens_per_epoch - 1) // seq_length`, for the other two policies the
requested `num_samples` — and the constructor's warning test fires
exactly when `len(shuffle_idx) ≠ len(sample_idx) - 1` (so it never fires
on the built triples; the mismatch case prints a warning instead of
crashing). -/
theorem claim_C6 (documents sizes : List Nat)
    (seqLength numEpochs tokensPerEpoch numSamples fuel fuel2 documentsLen : Nat)
    (labelDs : Option (Nat → List Int)) (allowChopped : Bool)
    (shuffleFn : Nat → List Nat → List Nat)
    (hperm : ∀ k l, (shuffleFn k l).Perm l)
    (hvalid : ∀ d ∈ documents, d < sizes.length)
    (hpos : ∀ s ∈ sizes, 0 < s)
    (hdocs : documents ≠ [])
    (hL : 0 < seqLength) (hE : 0 < numEpochs)
    (hT : tokensPerEpoch = num_tokens documents sizes)
    (di si shi di2 si2 shi2) :
    (∃ samples,
      build_sample_idx sizes (build_doc_idx shuffleFn documents numEpochs)
          seqLength numEpochs tokensPerEpoch = some samples ∧
      samples.length = (numEpochs * tokensPerEpoch - 1) / seqLength + 1 ∧
      (build_shuffle_idx shuffleFn (samples.length - 1)).length = samples.length - 1 ∧
      lengthMismatchWarning (build_shuffle_idx shuffleFn (samples.length - 1)).length
        samples.length = false) ∧
    (pack_until_overflow_build sizes labelDs documentsLen numSamples seqLength allowChopped
        shuffleFn fuel = .ok (di, si, shi) →
      si.length = numSamples + 1 ∧ shi.length = numSamples ∧
      lengthMismatchWarning shi.length si.length = false) ∧
    (unpacked_build sizes labelDs documentsLen numSamples seqLength allowChopped
        shuffleFn fuel2 = .ok (di2, si2, shi2) →
      si2.length = numSamples + 1 ∧ shi2.length = numSamples ∧
      lengthMismatchWarning shi2.length si2.length = false) ∧
    (∀ S P : Nat, lengthMismatchWarning S P = true ↔ ((S : Int) ≠ (P : Int) - 1)) := by
  refine ⟨?_, ?_, ?_, ?_⟩
  · obtain ⟨hv, htot, h1⟩ := build_doc_idx_facts documents sizes numEpochs tokensPerEpoch
      shuffleFn hperm hvalid hpos hdocs hE hT
    obtain ⟨samples, hbuild, hlen, -, -⟩ :=
      build_sample_idx_spec sizes (build_doc_idx shuffleFn documents numEpochs)
        seqLength numEpochs tokensPerEpoch hv hL htot h1
    have hshuf : (build_shuffle_idx shuffleFn (samples.length - 1)).length =
        samples.length - 1 := by
      rw [build_shuffle_idx]
      exact (hperm 1 _).length_eq.trans (List.length_range _)
    have hpos2 : 1 ≤ samples.length := by
      rw [hlen]
      exact Nat.succ_le_succ (Nat.zero_le _)
    refine ⟨samples, hbuild, hlen, hshuf, ?_⟩
    rw [hshuf]
    exact lengthMismatchWarning_consistent _ _ hpos2 (by omega)
  · intro h
    rw [pack_until_overflow_build] at h
    split at h
    · cases h
    · rename_i sampleIdx0 docIdx0 hres
      simp only [Except.ok.injEq, Prod.mk.injEq] at h
      obtain ⟨h1, h2, h3⟩ := h
      subst h1; subst h2; subst h3
      obtain ⟨-, -, C⟩ :=
        puoLoop_invariant sizes labelDs documentsLen numSamples seqLength allowChopped
          shuffleFn fuel _ 0 0 2 [] [] sampleIdx0 docIdx0 hres
      have hC : sampleIdx0.length = numSamples := C (by simp)
      have hsi : (sampleIdx0 ++ [(docIdx0.length, (0 : Int))]).length = numSamples + 1 := by
        simp [hC]
      have hshi : (shuffleFn 0 (List.range numSamples)).length = numSamples :=
        (hperm 0 _).length_eq.trans (List.length_range _)
      refine ⟨hsi, hshi, ?_⟩
      rw [hsi, hshi]
      exact lengthMismatchWarning_consistent _ _ (by omega) (by omega)
  · intro h
    rw [unpacked_build] at h
    split at h
    · cases h
    · rename_i dr hres
      simp only [Except.ok.injEq, Prod.mk.injEq] at h
      obtain ⟨h1, h2, h3⟩ := h
      subst h1; subst h2; subst h3
      have hsi : ((List.range (numSamples + 1)).map
          (fun i => (i, (0 : Int)))).length = numSamples + 1 := by
        simp
      have hshi : (shuffleFn 0 (List.range numSamples)).length = numSamples :=
        (hperm 0 _).length_eq.trans (List.length_range _)
      refine ⟨hsi, hshi, ?_⟩
      rw [hsi, hshi]
      exact lengthMismatchWarning_consistent _ _ (by omega) (by omega)
  · intro S P
    rw [lengthMismatchWarning, decide_eq_true_eq]
    omega

/-- C6 witness: with two documents of sizes `[3, 2]` and one epoch the
packed path builds consistent arrays, and a concrete
`pack_until_overflow` run yields a one-entry shuffle array against a
two-entry boundary array with the warning test false. -/
theorem claim_C6_witness :
    lengthMismatchWarning ([0] : List Nat).length
      ([((0 : Nat), (0 : Int)), (1, 0)] : List (Nat × Int)).length = false := by
  have h := claim_C6 [0, 1] [3, 2] 2 1 5 1 10 5 2 (some (fun _ => [5])) false idShuffle
    (fun k l => List.Perm.refl l) (by decide) (by decide) (by decide) (by decide)
    (by decide) rfl [0] [(0, 0), (1, 0)] [0] [0, 1] [(0, 0), (1, 0)] [0]
  exact (h.2.1 (by rfl)).2.2

/-- C5 witness: a concrete run in which a never-masked label dataset
lets both builders succeed, and the label-free `pack_until_overflow`
builder raises no attribute error. -/
theorem claim_C5_witness :
    (([5] : List Int).take (3 + 1)).all (· == -100) = false ∧
    isAttrError (pack_until_overflow_build [2, 2] none 2 1 3 false idShuffle 10) = false := by
  have h := claim_C5 [2, 2] (fun _ => [5]) 2 1 3 10 5 10 10 false idShuffle
    [0] [(0, 0), (1, 0)] [0] [0, 1] [(0, 0), (1, 0)] [0]
  exact ⟨h.1 (by rfl) 0 (by simp), h.2.2.1⟩

end GPT2D
